import Mathlib

/-!
Verification of the financial-risk-analysis scoring pipeline.

Shallow embedding of the Python source (`agent.py`) into Lean 4: pure
numeric code is translated over `ℚ` (Python floats modelled as exact
rationals), fallible code over explicit outcome types, and the retry
decorator as an explicit loop that records its invocations and sleeps.
-/

namespace FinancialRiskAgent

/-! ## Composite risk aggregator (`calculate_comprehensive_risk`) -/

/-- Python `round(x, 2)`: round to 2 decimal places, ties to even
(banker's rounding), modelled exactly over `ℚ`. -/
def round_half_even (q : ℚ) : ℤ :=
  if q - ⌊q⌋ < 1/2 then ⌊q⌋
  else if q - ⌊q⌋ > 1/2 then ⌊q⌋ + 1
  else if ⌊q⌋ % 2 = 0 then ⌊q⌋ else ⌊q⌋ + 1

/-- Round a rational to 2 decimal places the way Python `round(x, 2)` does. -/
def round2 (q : ℚ) : ℚ := (round_half_even (q * 100) : ℚ) / 100

/-- The four discrete risk tiers of the aggregator
(低风险 / 中风险 / 高风险 / 极高风险). -/
inductive RiskLevel : Type
  | critical
  | high
  | medium
  | low
deriving DecidableEq, Repr

/-- Source label of each tier, as printed by `calculate_comprehensive_risk`. -/
def RiskLevel.label : RiskLevel → String
  | .low => "低风险"
  | .medium => "中风险"
  | .high => "高风险"
  | .critical => "极高风险"

/-- Rank of a tier: larger means safer (低风险 highest). -/
def riskRank : RiskLevel → ℕ
  | .critical => 0
  | .high => 1
  | .medium => 2
  | .low => 3

/-- Tier assignment of `calculate_comprehensive_risk`: the if/elif chain on
the rounded comprehensive score. -/
def risk_level (comprehensive_score : ℚ) : RiskLevel :=
  if comprehensive_score ≥ 70 then .low
  else if comprehensive_score ≥ 40 then .medium
  else if comprehensive_score ≥ 20 then .high
  else .critical

/-- The scoring core of `calculate_comprehensive_risk`: weighted sum of the
seven sub-scores, rounded to 2 decimals, plus the tier. -/
def calculate_comprehensive_risk (financial_health_score volatility_score
    valuation_score historical_valuation_score trend_score turnover_score
    rsi_score : ℚ) : ℚ × RiskLevel :=
  let comprehensive_score :=
    financial_health_score * 0.25 +
    volatility_score * 0.16 +
    valuation_score * 0.18 +
    historical_valuation_score * 0.12 +
    trend_score * 0.10 +
    turnover_score * 0.12 +
    rsi_score * 0.07
  let comprehensive_score := round2 comprehensive_score
  (comprehensive_score, risk_level comprehensive_score)

/-! ## Turnover pipeline (`calculate_rtr`, `calculate_asymmetric_risk_deviation`,
`map_deviation_to_score`) -/

/-- Relative turnover ratio: `actual_turnover` is a percentage value,
`benchmark_turnover` a fraction, converted to percent at this call site. -/
def calculate_rtr (actual_turnover benchmark_turnover industry_factor : ℚ) : ℚ :=
  let benchmark_turnover_percent := benchmark_turnover * 100
  let denominator := benchmark_turnover_percent * industry_factor
  if denominator = 0 then 1
  else actual_turnover / denominator

/-- Asymmetric deviation from the 1.0 center: overshoot at 1.5x rate,
undershoot at 0.3x rate. -/
def calculate_asymmetric_risk_deviation (rtr : ℚ) : ℚ :=
  let center_value : ℚ := 1
  if rtr > center_value then (rtr - center_value) / center_value * 100 * 1.5
  else (center_value - rtr) / center_value * 100 * 0.3

/-- Map the absolute deviation through the six discrete score bands. -/
def map_deviation_to_score (deviation : ℚ) : ℚ :=
  let deviation_abs := |deviation|
  if deviation_abs < 10 then 100
  else if deviation_abs < 20 then 85
  else if deviation_abs < 40 then 70
  else if deviation_abs < 70 then 55
  else if deviation_abs < 100 then 40
  else 25

/-! ## Financial health total score (`calculate_financial_health_analysis`) -/

/-- Risk-warning score: 100 minus 50 (ST), 30 (consecutive loss),
20 (negative cashflow), clamped to [0, 100]. -/
def calculate_risk_warning_score (is_st consecutive_loss negative_cashflow : Bool) : ℚ :=
  let risk_warning_score : ℚ := 100
  let risk_warning_score := if is_st then risk_warning_score - 50 else risk_warning_score
  let risk_warning_score :=
    if consecutive_loss then risk_warning_score - 30 else risk_warning_score
  let risk_warning_score :=
    if negative_cashflow then risk_warning_score - 20 else risk_warning_score
  max 0 (min 100 risk_warning_score)

/-- Total-score computation of `calculate_financial_health_analysis`:
35/30/25/10 weighted sum of the dimension scores, then the ST cap at 40,
then the consecutive-loss (−20) and negative-cashflow (−15) subtractions,
each floored at 0. -/
def financial_health_total_score (profitability_score cashflow_score
    solvency_score : ℚ) (is_st consecutive_loss negative_cashflow : Bool) : ℚ :=
  let risk_warning_score :=
    calculate_risk_warning_score is_st consecutive_loss negative_cashflow
  let total_score :=
    profitability_score * 0.35 +
    cashflow_score * 0.30 +
    solvency_score * 0.25 +
    risk_warning_score * 0.10
  let total_score := if is_st then min 40 total_score else total_score
  let total_score := if consecutive_loss then max 0 (total_score - 20) else total_score
  let total_score := if negative_cashflow then max 0 (total_score - 15) else total_score
  total_score

/-! ## RSI (`calculate_rsi`) -/

/-- Consecutive price changes `prices[i] - prices[i-1]` for `i = 1, ...`. -/
def price_changes (prices : List ℚ) : List ℚ :=
  List.zipWith (fun prev cur => cur - prev) prices prices.tail

/-- Gain of one change: the change itself when positive, else 0. -/
def gain_of (change : ℚ) : ℚ := if change > 0 then change else 0

/-- Loss of one change: 0 when the change is positive, else `abs(change)`. -/
def loss_of (change : ℚ) : ℚ := if change > 0 then 0 else |change|

/-- One RSI value from the current average gain/loss:
100 when `avg_loss = 0`, else `100 - 100 / (1 + avg_gain / avg_loss)`. -/
def rsi_from_avgs (avg_gain avg_loss : ℚ) : ℚ :=
  if avg_loss = 0 then 100
  else 100 - 100 / (1 + avg_gain / avg_loss)

/-- Wilder smoothing step `avg = (avg * (period - 1) + new) / period`. -/
def wilder_smooth (period : ℕ) (avg new : ℚ) : ℚ :=
  (avg * ((period : ℚ) - 1) + new) / (period : ℚ)

/-- The follow-up loop of `calculate_rsi`: smooth the averages with each
further (gain, loss) pair and emit one RSI value per pair. -/
def rsi_loop (period : ℕ) : ℚ → ℚ → List (ℚ × ℚ) → List ℚ
  | _, _, [] => []
  | avg_gain, avg_loss, gl :: rest =>
    let avg_gain := wilder_smooth period avg_gain gl.1
    let avg_loss := wilder_smooth period avg_loss gl.2
    rsi_from_avgs avg_gain avg_loss :: rsi_loop period avg_gain avg_loss rest

/-- `calculate_rsi(prices, period)`: zeros when fewer than `period + 1`
prices; otherwise initial simple averages over the first `period` deltas,
Wilder smoothing for the rest, and a `period - 1` zero-sentinel prefix. -/
def calculate_rsi (prices : List ℚ) (period : ℕ) : List ℚ :=
  if prices.length < period + 1 then List.replicate prices.length 0
  else
    let gains := (price_changes prices).map gain_of
    let losses := (price_changes prices).map loss_of
    let avg_gain := (gains.take period).sum / (period : ℚ)
    let avg_loss := (losses.take period).sum / (period : ℚ)
    List.replicate (period - 1) 0 ++
      (rsi_from_avgs avg_gain avg_loss ::
        rsi_loop period avg_gain avg_loss ((gains.drop period).zip (losses.drop period)))

/-! ## Industry percentile engine (`calculate_industry_percentile`)

The per-peer data fetch is external I/O; it is abstracted as a
`fetch_metric` function returning `none` when the peer's metric is missing
or its fetch raises (the inner `try/except: continue` skips that peer). -/

/-- `calculate_industry_percentile(metric_value, ...)` over an abstract peer
roster: neutral `(0.5, 0.0)` when the metric is `None`, the roster is empty
or no peer values are collected; otherwise sort the collected values
descending and return (fraction of peer values strictly greater, average). -/
def calculate_industry_percentile {β : Type} (metric_value : Option ℚ)
    (industry_components : List β) (fetch_metric : β → Option ℚ) : ℚ × ℚ :=
  match metric_value with
  | none => (0.5, 0.0)
  | some v =>
    if industry_components.isEmpty then (0.5, 0.0)
    else
      let metric_values := industry_components.filterMap fetch_metric
      if metric_values.isEmpty then (0.5, 0.0)
      else
        let sorted := metric_values.mergeSort (fun a b => decide (b ≤ a))
        let count_above := (sorted.filter (fun val => decide (val > v))).length
        let percentile := (count_above : ℚ) / (sorted.length : ℚ)
        let industry_avg := sorted.sum / (sorted.length : ℚ)
        (percentile, industry_avg)

/-! ## Cache store (`get_cached_data`) -/

/-- State of one cache key's on-disk file. -/
inductive CacheFileState (Payload : Type) : Type
  | missing
  | corrupt
  | valid (payload : Payload)

/-- Outcome of a Python call: a return value or a propagated exception. -/
inductive PyOutcome (ε α : Type) : Type
  | ok (value : α)
  | raises (exc : ε)
deriving DecidableEq

/-- `get_cached_data(key)`: returns `None` when the file does not exist;
otherwise calls `json.load` with no exception handler, so a corrupt file's
parse error propagates to the caller. -/
def get_cached_data {Payload : Type} (file : CacheFileState Payload) :
    PyOutcome String (Option Payload) :=
  match file with
  | .missing => .ok none
  | .corrupt => .raises "json.decoder.JSONDecodeError"
  | .valid payload => .ok (some payload)

/-! ## Retry with exponential backoff (`retry_with_backoff`) -/

/-- Naive substring containment, modelling Python's `sub in s`. -/
def str_contains (s sub : String) : Bool :=
  (List.range (s.toList.length + 1)).any
    (fun i => sub.toList.isPrefixOf (s.toList.drop i))

/-- The decorator's transient-network check:
`any(error_code in str(e) for error_code in [...])`. -/
def is_network_error (msg : String) : Bool :=
  ["10060", "10054", "10057", "ConnectionError", "TimeoutError"].any
    (fun error_code => str_contains msg error_code)

/-- Outcome of one invocation of the wrapped operation. -/
inductive AttemptOutcome (α : Type) : Type
  | ok (value : α)
  | raises (msg : String)

/-- Observable run of the retry wrapper: how many times the wrapped
operation was invoked, the sleeps performed (in order), and the final
result (`.ok none` models the implicit `return None` when the loop body
never runs, i.e. `max_retries = 0`). -/
structure RetryRun (α : Type) : Type where
  invocations : ℕ
  sleeps : List ℚ
  result : Except String (Option α)

/-- The `while retries < max_retries` loop of `retry_with_backoff`'s
wrapper, with the attempt outcomes supplied as a function of the attempt
index. -/
def retry_loop {α : Type} (attempt : ℕ → AttemptOutcome α) (max_retries : ℕ)
    (exponent : ℚ) (retries : ℕ) (delay : ℚ) : RetryRun α :=
  if _h : retries < max_retries then
    match attempt retries with
    | .ok v => ⟨1, [], .ok (some v)⟩
    | .raises e =>
      if retries + 1 = max_retries then ⟨1, [], .error e⟩
      else if is_network_error e then
        let rest := retry_loop attempt max_retries exponent (retries + 1) (delay * exponent)
        ⟨rest.invocations + 1, delay :: rest.sleeps, rest.result⟩
      else ⟨1, [], .error e⟩
  else ⟨0, [], .ok none⟩
termination_by max_retries - retries
decreasing_by omega

/-- `retry_with_backoff(max_retries, base_delay, exponent)` applied to a
wrapped operation: start with `retries = 0` and `delay = base_delay`.
The source defaults are `max_retries = 3`, `base_delay = 1.0`,
`exponent = 2.0`. -/
def retry_with_backoff {α : Type} (max_retries : ℕ) (base_delay exponent : ℚ)
    (attempt : ℕ → AttemptOutcome α) : RetryRun α :=
  retry_loop attempt max_retries exponent 0 base_delay

/-! ## Demonstration inputs used by witnesses -/

/-- A concrete 15-point price series. -/
def demo_prices : List ℚ :=
  [10, 11, 12, 11, 10, 9, 10, 11, 12, 13, 12, 11, 10, 11, 12]

/-- A concrete per-peer metric fetch over natural-number peer codes. -/
def demo_fetch (code : ℕ) : Option ℚ := some (code : ℚ)

/-- A concrete attempt schedule: first a transient network failure, then a
non-network failure. -/
def demo_attempt : ℕ → AttemptOutcome ℕ
  | 0 => .raises "ConnectionError: peer reset"
  | _ => .raises "ValueError: bad payload"

/-! ## Theorems -/

/-! ### RSI helper lemmas -/

/-- One step of the loop produces one output per (gain, loss) pair. -/
theorem rsi_loop_length (period : ℕ) (ag al : ℚ) (l : List (ℚ × ℚ)) :
    (rsi_loop period ag al l).length = l.length := by
  induction l generalizing ag al with
  | nil => rfl
  | cons hd tl ih => simp [rsi_loop, ih]

/-- There is one price change per consecutive pair of prices. -/
theorem price_changes_length (prices : List ℚ) :
    (price_changes prices).length = prices.length - 1 := by
  simp only [price_changes, List.length_zipWith, List.length_tail]
  omega

/-- Gains are nonnegative. -/
theorem gain_of_nonneg (change : ℚ) : 0 ≤ gain_of change := by
  unfold gain_of
  split_ifs with h
  · linarith
  · exact le_refl 0

/-- Losses are nonnegative. -/
theorem loss_of_nonneg (change : ℚ) : 0 ≤ loss_of change := by
  unfold loss_of
  split_ifs with h
  · exact le_refl 0
  · exact abs_nonneg change

/-- An RSI value computed from nonnegative averages lies in [0, 100]. -/
theorem rsi_from_avgs_bounds (ag al : ℚ) (hag : 0 ≤ ag) (hal : 0 ≤ al) :
    0 ≤ rsi_from_avgs ag al ∧ rsi_from_avgs ag al ≤ 100 := by
  unfold rsi_from_avgs
  split_ifs with h
  · norm_num
  · have hal' : 0 < al := lt_of_le_of_ne hal (Ne.symm h)
    have hrs : 0 ≤ ag / al := div_nonneg hag hal
    have h1 : (0 : ℚ) < 1 + ag / al := by linarith
    have h2 : 100 / (1 + ag / al) ≤ 100 := div_le_self (by norm_num) (by linarith)
    have h3 : 0 < 100 / (1 + ag / al) := div_pos (by norm_num) h1
    constructor <;> linarith

/-- Wilder smoothing keeps a nonnegative average nonnegative. -/
theorem wilder_smooth_nonneg (period : ℕ) (hp : 1 ≤ period) (avg x : ℚ)
    (havg : 0 ≤ avg) (hx : 0 ≤ x) : 0 ≤ wilder_smooth period avg x := by
  unfold wilder_smooth
  have h1 : (1 : ℚ) ≤ (period : ℚ) := by exact_mod_cast hp
  have h2 : (0 : ℚ) ≤ (period : ℚ) - 1 := by linarith
  exact div_nonneg (add_nonneg (mul_nonneg havg h2) hx) (by linarith)

/-- Every value emitted by the smoothing loop lies in [0, 100] as long as
the running averages and all further gains/losses are nonnegative. -/
theorem rsi_loop_bounds (period : ℕ) (hp : 1 ≤ period) (l : List (ℚ × ℚ)) :
    ∀ ag al : ℚ, 0 ≤ ag → 0 ≤ al → (∀ p ∈ l, 0 ≤ p.1 ∧ 0 ≤ p.2) →
      ∀ x ∈ rsi_loop period ag al l, 0 ≤ x ∧ x ≤ 100 := by
  induction l with
  | nil =>
    intro ag al _ _ _ x hx
    simp [rsi_loop] at hx
  | cons hd tl ih =>
    intro ag al hag hal hl x hx
    have hhd := hl hd (List.mem_cons_self hd tl)
    have hag' : 0 ≤ wilder_smooth period ag hd.1 :=
      wilder_smooth_nonneg period hp ag hd.1 hag hhd.1
    have hal' : 0 ≤ wilder_smooth period al hd.2 :=
      wilder_smooth_nonneg period hp al hd.2 hal hhd.2
    simp only [rsi_loop, List.mem_cons] at hx
    rcases hx with hx | hx
    · subst hx
      exact rsi_from_avgs_bounds _ _ hag' hal'
    · exact ih _ _ hag' hal' (fun p hp' => hl p (List.mem_cons_of_mem hd hp')) x hx

/-- The initial average of a prefix of the mapped gains is nonnegative;
stated for any list of nonnegative values. -/
theorem avg_take_nonneg (l : List ℚ) (period : ℕ) (hl : ∀ x ∈ l, 0 ≤ x) :
    0 ≤ (l.take period).sum / (period : ℚ) := by
  refine div_nonneg (List.sum_nonneg ?_) (by positivity)
  intro x hx
  exact hl x (List.mem_of_mem_take hx)

/-! ### RSI claim theorems -/

/-- C10: with period 14, a price list with at least 15 elements yields an
RSI list of length one fewer than the input (so outputs are not
index-aligned with input positions), and a shorter list yields a zero list
of exactly the input's length. -/
theorem calculate_rsi_length :
    (∀ prices : List ℚ, 15 ≤ prices.length →
      (calculate_rsi prices 14).length = prices.length - 1) ∧
    (∀ prices : List ℚ, prices.length < 15 →
      calculate_rsi prices 14 = List.replicate prices.length 0) := by
  constructor
  · intro prices h
    unfold calculate_rsi
    rw [if_neg (by omega)]
    simp only [List.length_append, List.length_replicate, List.length_cons,
      rsi_loop_length, List.length_zip, List.length_drop, List.length_map,
      price_changes_length]
    omega
  · intro prices h
    unfold calculate_rsi
    rw [if_pos (by omega)]

/-- C10 witness: a 15-point series yields 14 RSI values; a 3-point series
yields 3 zeros. -/
theorem calculate_rsi_length_witness :
    (calculate_rsi demo_prices 14).length = demo_prices.length - 1 ∧
    calculate_rsi ([1, 2, 3] : List ℚ) 14 =
      List.replicate (([1, 2, 3] : List ℚ).length) 0 :=
  ⟨calculate_rsi_length.1 demo_prices (by decide),
   calculate_rsi_length.2 ([1, 2, 3] : List ℚ) (by decide)⟩

/-- C5: with period 14 and at least 15 prices, every returned RSI value
lies in [0, 100] and the first 13 entries are the sentinel 0; and whenever
the Wilder-smoothed average loss is 0 the computed RSI value is exactly
100. -/
theorem calculate_rsi_bounds :
    (∀ prices : List ℚ, 15 ≤ prices.length →
      (∀ x ∈ calculate_rsi prices 14, 0 ≤ x ∧ x ≤ 100) ∧
      (calculate_rsi prices 14).take 13 = List.replicate 13 0) ∧
    (∀ avg_gain : ℚ, rsi_from_avgs avg_gain 0 = 100) := by
  constructor
  · intro prices h
    have hgain : ∀ x ∈ (price_changes prices).map gain_of, 0 ≤ x := by
      intro x hx
      rcases List.mem_map.1 hx with ⟨c, _, rfl⟩
      exact gain_of_nonneg c
    have hloss : ∀ x ∈ (price_changes prices).map loss_of, 0 ≤ x := by
      intro x hx
      rcases List.mem_map.1 hx with ⟨c, _, rfl⟩
      exact loss_of_nonneg c
    have hag := avg_take_nonneg ((price_changes prices).map gain_of) 14 hgain
    have hal := avg_take_nonneg ((price_changes prices).map loss_of) 14 hloss
    constructor
    · intro x hx
      unfold calculate_rsi at hx
      rw [if_neg (by omega)] at hx
      simp only [List.mem_append, List.mem_cons] at hx
      rcases hx with hx | hx | hx
      · have := List.eq_of_mem_replicate hx
        subst this
        norm_num
      · subst hx
        exact rsi_from_avgs_bounds _ _ hag hal
      · refine rsi_loop_bounds 14 (by norm_num) _ _ _ hag hal ?_ x hx
        intro p hp
        have hz := List.of_mem_zip hp
        exact ⟨hgain _ (List.mem_of_mem_drop hz.1), hloss _ (List.mem_of_mem_drop hz.2)⟩
    · unfold calculate_rsi
      rw [if_neg (by omega)]
      exact List.take_left' (by simp)
  · intro avg_gain
    unfold rsi_from_avgs
    rw [if_pos rfl]

/-- C5 witness: the bounds, sentinel prefix and avg-loss-zero clause at
concrete inputs. -/
theorem calculate_rsi_bounds_witness :
    ((∀ x ∈ calculate_rsi demo_prices 14, 0 ≤ x ∧ x ≤ 100) ∧
      (calculate_rsi demo_prices 14).take 13 = List.replicate 13 0) ∧
    rsi_from_avgs 7 0 = 100 :=
  ⟨calculate_rsi_bounds.1 demo_prices (by decide), calculate_rsi_bounds.2 7⟩

/-- C1: for every 7-tuple of sub-scores, the composite risk score computed
by `calculate_comprehensive_risk` equals the weighted sum with weights
0.25, 0.16, 0.18, 0.12, 0.10, 0.12, 0.07, rounded to 2 decimal places, and
these seven weights sum to exactly 1.00 (a fortiori within 1e-9). -/
theorem comprehensive_risk_is_weighted_sum (f v va hv t tu r : ℚ) :
    (calculate_comprehensive_risk f v va hv t tu r).1 =
      round2 (f * 0.25 + v * 0.16 + va * 0.18 + hv * 0.12 +
        t * 0.10 + tu * 0.12 + r * 0.07) ∧
    (0.25 + 0.16 + 0.18 + 0.12 + 0.10 + 0.12 + 0.07 : ℚ) = 1 ∧
    |(0.25 + 0.16 + 0.18 + 0.12 + 0.10 + 0.12 + 0.07 : ℚ) - 1| ≤ 1e-9 := by
  refine ⟨rfl, by norm_num, by norm_num⟩

/-- C2: the risk tier assigned by `calculate_comprehensive_risk` is the
step function of the composite score (≥70 low, ≥40 medium, ≥20 high, else
critical), hence a pure, monotonically non-decreasing function of the
composite score. -/
theorem risk_level_step_and_monotone :
    (∀ f v va hv t tu r : ℚ,
      (calculate_comprehensive_risk f v va hv t tu r).2 =
        risk_level (calculate_comprehensive_risk f v va hv t tu r).1) ∧
    (∀ s : ℚ,
      (70 ≤ s → risk_level s = .low) ∧
      (40 ≤ s → s < 70 → risk_level s = .medium) ∧
      (20 ≤ s → s < 40 → risk_level s = .high) ∧
      (s < 20 → risk_level s = .critical)) ∧
    (∀ s₁ s₂ : ℚ, s₁ ≤ s₂ → riskRank (risk_level s₁) ≤ riskRank (risk_level s₂)) := by
  refine ⟨fun _ _ _ _ _ _ _ => rfl, fun s => ?_, fun s₁ s₂ h => ?_⟩
  · unfold risk_level
    refine ⟨fun h => ?_, fun h h' => ?_, fun h h' => ?_, fun h => ?_⟩ <;>
      split_ifs <;> first | rfl | linarith
  · unfold risk_level
    split_ifs <;> simp [riskRank] <;> linarith

/-- C2 witness: the step function and monotonicity at concrete scores. -/
theorem risk_level_step_and_monotone_witness :
    risk_level 85 = .low ∧ risk_level 55 = .medium ∧ risk_level 25 = .high ∧
    risk_level 5 = .critical ∧ riskRank (risk_level 5) ≤ riskRank (risk_level 85) :=
  ⟨(risk_level_step_and_monotone.2.1 85).1 (by norm_num),
   (risk_level_step_and_monotone.2.1 55).2.1 (by norm_num) (by norm_num),
   (risk_level_step_and_monotone.2.1 25).2.2.1 (by norm_num) (by norm_num),
   (risk_level_step_and_monotone.2.1 5).2.2.2 (by norm_num),
   risk_level_step_and_monotone.2.2 5 85 (by norm_num)⟩

/-- C3 counterexample: a corrupt cache file does NOT behave as a cache
miss — `get_cached_data` propagates the JSON parse error instead of
returning the absent value. -/
theorem get_cached_data_corrupt_not_miss :
    get_cached_data (CacheFileState.corrupt : CacheFileState Unit) ≠
      PyOutcome.ok none ∧
    get_cached_data (CacheFileState.corrupt : CacheFileState Unit) =
      PyOutcome.raises "json.decoder.JSONDecodeError" := by
  exact ⟨by decide, rfl⟩

/-- C3 amended: `get_cached_data` returns the absent value only when the
file does not exist; when the file exists it parses it with no exception
handler, so a corrupt file's parse error propagates to the caller, and a
valid file's payload is returned. -/
theorem get_cached_data_cases {Payload : Type} (payload : Payload) :
    get_cached_data (CacheFileState.missing : CacheFileState Payload) = .ok none ∧
    get_cached_data (CacheFileState.valid payload) = .ok (some payload) ∧
    get_cached_data (CacheFileState.corrupt : CacheFileState Payload) =
      .raises "json.decoder.JSONDecodeError" :=
  ⟨rfl, rfl, rfl⟩

/-- C8: actual turnover 2.0 (percent), benchmark 0.01 (fraction form of
1.0%), industry factor 1.0 give RTR = 2.0, asymmetric deviation
(2−1)/1·100·1.5 = 150, and band score 25 (worst band). -/
theorem turnover_scenario :
    calculate_rtr 2 0.01 1 = 2 ∧
    calculate_asymmetric_risk_deviation (calculate_rtr 2 0.01 1) = 150 ∧
    map_deviation_to_score
      (calculate_asymmetric_risk_deviation (calculate_rtr 2 0.01 1)) = 25 := by
  refine ⟨?_, ?_, ?_⟩ <;> norm_num [calculate_rtr, calculate_asymmetric_risk_deviation,
    map_deviation_to_score, abs_of_nonneg]

/-- C9: for every ST-flagged instrument, whatever the dimension scores
(hence whatever the raw weighted total), the financial-health total score
is at most 40: the ST cap is applied first and the later consecutive-loss
and negative-cashflow subtractions can only lower it further. -/
theorem financial_health_st_cap (p c s : ℚ) (cl ncf : Bool) :
    financial_health_total_score p c s true cl ncf ≤ 40 := by
  have step : ∀ x d : ℚ, x ≤ 40 → 0 ≤ d → max 0 (x - d) ≤ 40 := by
    intro x d hx hd
    exact max_le (by norm_num) (by linarith)
  unfold financial_health_total_score
  cases cl <;> cases ncf <;> simp only [if_true, if_false, Bool.false_eq_true] <;>
    first
      | exact min_le_left _ _
      | exact step _ _ (min_le_left _ _) (by norm_num)
      | exact step _ _ (step _ _ (min_le_left _ _) (by norm_num)) (by norm_num)

/-! ### Industry percentile helper lemmas -/

/-- With a nonempty collection of peer values, `calculate_industry_percentile`
computes the strictly-greater fraction and the average of the collected
values (the descending sort is a permutation, so it changes neither
counts, lengths nor sums). -/
theorem calculate_industry_percentile_eq {β : Type} (v : ℚ) (comps : List β)
    (fetch : β → Option ℚ) (h : comps.filterMap fetch ≠ []) :
    calculate_industry_percentile (some v) comps fetch =
      ((((comps.filterMap fetch).filter (fun val => decide (val > v))).length : ℚ) /
        ((comps.filterMap fetch).length : ℚ),
       (comps.filterMap fetch).sum / ((comps.filterMap fetch).length : ℚ)) := by
  have hcomp : comps ≠ [] := by
    intro hc
    exact h (by simp [hc])
  have hperm : List.Perm
      ((comps.filterMap fetch).mergeSort (fun a b => decide (b ≤ a)))
      (comps.filterMap fetch) := List.mergeSort_perm _ _
  simp only [calculate_industry_percentile]
  rw [if_neg (by simpa using hcomp), if_neg (by simpa using h)]
  rw [(hperm.filter _).length_eq, hperm.length_eq, hperm.sum_eq]

/-- Filtering with a pointwise-stronger predicate yields no more elements. -/
theorem filter_length_mono {α : Type} (l : List α) (p q : α → Bool)
    (h : ∀ a, p a = true → q a = true) :
    (l.filter p).length ≤ (l.filter q).length := by
  induction l with
  | nil => simp
  | cons hd tl ih =>
    by_cases hp : p hd = true
    · rw [List.filter_cons_of_pos hp, List.filter_cons_of_pos (h hd hp)]
      simpa using ih
    · rw [List.filter_cons_of_neg (by simpa using hp)]
      by_cases hq : q hd = true
      · rw [List.filter_cons_of_pos hq]
        simp only [List.length_cons]
        omega
      · rw [List.filter_cons_of_neg (by simpa using hq)]
        exact ih

/-! ### Industry percentile claim theorems -/

/-- C6: `calculate_industry_percentile` is total (the Lean model is a total
function, mirroring the outer catch-all handler), returns the neutral pair
(0.5, 0.0) when the metric value is null, the peer roster is empty, or no
peer values are collected, and otherwise returns as percentile the
fraction of collected peer values strictly greater than the metric value. -/
theorem industry_percentile_defaults_and_formula {β : Type} (comps : List β)
    (fetch : β → Option ℚ) :
    calculate_industry_percentile none comps fetch = (0.5, 0.0) ∧
    (∀ v : ℚ, comps = [] →
      calculate_industry_percentile (some v) comps fetch = (0.5, 0.0)) ∧
    (∀ v : ℚ, comps.filterMap fetch = [] →
      calculate_industry_percentile (some v) comps fetch = (0.5, 0.0)) ∧
    (∀ v : ℚ, comps.filterMap fetch ≠ [] →
      (calculate_industry_percentile (some v) comps fetch).1 =
        (((comps.filterMap fetch).filter (fun val => decide (val > v))).length : ℚ) /
          ((comps.filterMap fetch).length : ℚ)) := by
  refine ⟨rfl, fun v hc => ?_, fun v hm => ?_, fun v hne => ?_⟩
  · simp only [calculate_industry_percentile]
    rw [if_pos (by simpa using hc)]
  · simp only [calculate_industry_percentile]
    by_cases hc : comps = []
    · rw [if_pos (by simpa using hc)]
    · rw [if_neg (by simpa using hc), if_pos (by simpa using hm)]
  · rw [calculate_industry_percentile_eq v comps fetch hne]

/-- C6 witness: the neutral defaults and the strictly-greater formula at
concrete rosters. -/
theorem industry_percentile_defaults_and_formula_witness :
    calculate_industry_percentile none ([1, 2, 3] : List ℕ) demo_fetch = (0.5, 0.0) ∧
    calculate_industry_percentile (some 1) ([] : List ℕ) demo_fetch = (0.5, 0.0) ∧
    calculate_industry_percentile (some 1) ([4, 5] : List ℕ) (fun _ => none) = (0.5, 0.0) ∧
    (calculate_industry_percentile (some 1.5) ([1, 2, 3] : List ℕ) demo_fetch).1 =
      ((((([1, 2, 3] : List ℕ).filterMap demo_fetch).filter
          (fun val => decide (val > 1.5))).length : ℚ) /
        ((([1, 2, 3] : List ℕ).filterMap demo_fetch).length : ℚ)) :=
  ⟨(industry_percentile_defaults_and_formula ([1, 2, 3] : List ℕ) demo_fetch).1,
   (industry_percentile_defaults_and_formula ([] : List ℕ) demo_fetch).2.1 1 rfl,
   (industry_percentile_defaults_and_formula ([4, 5] : List ℕ) (fun _ => none)).2.2.1 1
     (by decide),
   (industry_percentile_defaults_and_formula ([1, 2, 3] : List ℕ) demo_fetch).2.2.2 1.5
     (by decide)⟩

/-- C7: with a fixed roster yielding a nonempty collection of peer values,
raising the instrument's metric value never increases the percentile:
for v₁ ≤ v₂ the strictly-greater fraction at v₂ is at most the one at v₁. -/
theorem industry_percentile_monotone {β : Type} (comps : List β)
    (fetch : β → Option ℚ) (v₁ v₂ : ℚ) (hne : comps.filterMap fetch ≠ [])
    (hv : v₁ ≤ v₂) :
    (calculate_industry_percentile (some v₂) comps fetch).1 ≤
      (calculate_industry_percentile (some v₁) comps fetch).1 := by
  rw [calculate_industry_percentile_eq v₁ comps fetch hne,
    calculate_industry_percentile_eq v₂ comps fetch hne]
  have hlen : (0 : ℚ) < ((comps.filterMap fetch).length : ℚ) := by
    have : 0 < (comps.filterMap fetch).length := List.length_pos.2 hne
    exact_mod_cast this
  have hcount : ((comps.filterMap fetch).filter (fun val => decide (val > v₂))).length ≤
      ((comps.filterMap fetch).filter (fun val => decide (val > v₁))).length := by
    refine filter_length_mono _ _ _ ?_
    intro a ha
    have h2 : v₂ < a := of_decide_eq_true ha
    exact decide_eq_true (lt_of_le_of_lt hv h2)
  have hcast : (((comps.filterMap fetch).filter (fun val => decide (val > v₂))).length : ℚ) ≤
      (((comps.filterMap fetch).filter (fun val => decide (val > v₁))).length : ℚ) := by
    exact_mod_cast hcount
  exact div_le_div_of_nonneg_right hcast hlen.le

/-- C7 witness: the monotonicity at a concrete roster and metric pair. -/
theorem industry_percentile_monotone_witness :
    (calculate_industry_percentile (some 2) ([1, 2, 3] : List ℕ) demo_fetch).1 ≤
      (calculate_industry_percentile (some 1) ([1, 2, 3] : List ℕ) demo_fetch).1 :=
  industry_percentile_monotone ([1, 2, 3] : List ℕ) demo_fetch 1 2 (by decide) (by norm_num)

/-! ### Retry-loop helper lemmas (fuel induction on the remaining budget) -/

/-- The loop invokes the wrapped operation at most its remaining budget. -/
theorem retry_loop_invocations_le {α : Type} (attempt : ℕ → AttemptOutcome α)
    (m : ℕ) (exp : ℚ) :
    ∀ fuel retries delay, m - retries ≤ fuel →
      (retry_loop attempt m exp retries delay).invocations ≤ m - retries := by
  intro fuel
  induction fuel with
  | zero =>
    intro retries delay hf
    rw [retry_loop, dif_neg (by omega)]
    dsimp only
    omega
  | succ n ih =>
    intro retries delay hf
    rw [retry_loop]
    by_cases h : retries < m
    · rw [dif_pos h]
      cases hA : attempt retries with
      | ok v =>
        dsimp only
        omega
      | raises e =>
        dsimp only
        by_cases h1 : retries + 1 = m
        · rw [if_pos h1]
          dsimp only
          omega
        · rw [if_neg h1]
          by_cases h2 : is_network_error e
          · rw [if_pos h2]
            dsimp only
            have := ih (retries + 1) (delay * exp) (by omega)
            omega
          · rw [if_neg h2]
            dsimp only
            omega
    · rw [dif_neg h]
      dsimp only
      omega

/-- The sleeps performed by the loop are exactly the geometric backoff
series starting from the current delay. -/
theorem retry_loop_sleeps_geometric {α : Type} (attempt : ℕ → AttemptOutcome α)
    (m : ℕ) (exp : ℚ) :
    ∀ fuel retries delay, m - retries ≤ fuel →
      ∃ c : ℕ, (retry_loop attempt m exp retries delay).sleeps =
        (List.range c).map (fun k => delay * exp ^ k) := by
  intro fuel
  induction fuel with
  | zero =>
    intro retries delay hf
    rw [retry_loop, dif_neg (by omega)]
    exact ⟨0, rfl⟩
  | succ n ih =>
    intro retries delay hf
    rw [retry_loop]
    by_cases h : retries < m
    · rw [dif_pos h]
      cases hA : attempt retries with
      | ok v => exact ⟨0, rfl⟩
      | raises e =>
        dsimp only
        by_cases h1 : retries + 1 = m
        · rw [if_pos h1]
          exact ⟨0, rfl⟩
        · rw [if_neg h1]
          by_cases h2 : is_network_error e
          · rw [if_pos h2]
            dsimp only
            obtain ⟨c, hc⟩ := ih (retries + 1) (delay * exp) (by omega)
            refine ⟨c + 1, ?_⟩
            rw [hc, List.range_succ_eq_map, List.map_cons, List.map_map]
            congr 1
            · rw [pow_zero, mul_one]
            · refine List.map_congr_left ?_
              intro k _
              simp only [Function.comp_apply, pow_succ]
              ring
          · rw [if_neg h2]
            exact ⟨0, rfl⟩
    · rw [dif_neg h]
      exact ⟨0, rfl⟩

/-- A non-transient failure at index `k` (after transient failures at all
earlier indices) is propagated at once: `k + 1 - retries` invocations,
one sleep per preceding transient failure, and the failure as result. -/
theorem retry_loop_nonnetwork {α : Type} (attempt : ℕ → AttemptOutcome α)
    (m : ℕ) (exp : ℚ) :
    ∀ fuel retries delay k e, m - retries ≤ fuel → retries ≤ k → k < m →
      (∀ j, retries ≤ j → j < k →
        ∃ ej, attempt j = .raises ej ∧ is_network_error ej = true) →
      attempt k = .raises e → is_network_error e = false →
      (retry_loop attempt m exp retries delay).result = .error e ∧
      (retry_loop attempt m exp retries delay).invocations = k - retries + 1 ∧
      (retry_loop attempt m exp retries delay).sleeps.length = k - retries := by
  intro fuel
  induction fuel with
  | zero =>
    intro retries delay k e hf hrk hkm _ _ _
    omega
  | succ n ih =>
    intro retries delay k e hf hrk hkm hprev hk hnet
    rw [retry_loop, dif_pos (by omega)]
    by_cases hek : retries = k
    · subst hek
      rw [hk]
      dsimp only
      by_cases h1 : retries + 1 = m
      · rw [if_pos h1]
        refine ⟨rfl, ?_, ?_⟩ <;> dsimp only <;> simp
      · rw [if_neg h1, if_neg (by simp [hnet])]
        refine ⟨rfl, ?_, ?_⟩ <;> dsimp only <;> simp
    · have hrk' : retries < k := lt_of_le_of_ne hrk hek
      obtain ⟨er, her, hner⟩ := hprev retries le_rfl hrk'
      rw [her]
      dsimp only
      rw [if_neg (by omega), if_pos hner]
      dsimp only
      obtain ⟨h1, h2, h3⟩ := ih (retries + 1) (delay * exp) k e (by omega) (by omega)
        hkm (fun j hj1 hj2 => hprev j (by omega) hj2) hk hnet
      refine ⟨h1, ?_, ?_⟩
      · rw [h2]
        omega
      · simp only [List.length_cons, h3]
        omega

/-- When every attempt up to the last fails (transiently before the last),
the loop propagates the last attempt's failure. -/
theorem retry_loop_exhausted {α : Type} (attempt : ℕ → AttemptOutcome α)
    (m : ℕ) (exp : ℚ) :
    ∀ fuel retries delay e, m - retries ≤ fuel → retries < m →
      (∀ j, retries ≤ j → j < m - 1 →
        ∃ ej, attempt j = .raises ej ∧ is_network_error ej = true) →
      attempt (m - 1) = .raises e →
      (retry_loop attempt m exp retries delay).result = .error e := by
  intro fuel
  induction fuel with
  | zero =>
    intro retries delay e hf hrm _ _
    omega
  | succ n ih =>
    intro retries delay e hf hrm hprev hlast
    rw [retry_loop, dif_pos hrm]
    by_cases h1 : retries + 1 = m
    · have hr : retries = m - 1 := by omega
      rw [hr, hlast]
      dsimp only
      rw [if_pos (by omega)]
    · obtain ⟨er, her, hner⟩ := hprev retries le_rfl (by omega)
      rw [her]
      dsimp only
      rw [if_neg h1, if_pos hner]
      dsimp only
      exact ih (retries + 1) (delay * exp) e (by omega) (by omega)
        (fun j hj1 hj2 => hprev j (by omega) hj2) hlast

/-! ### Retry claim theorem -/

/-- C4: `retry_with_backoff` invokes the wrapped operation at most
`max_retries` times; its sleeps are exactly the geometric series
`base_delay * exponent ^ k` (backoff before the (k+1)-th retry); a
non-transient failure is propagated at once, with no further invocation
and no sleep for it; and when retries are exhausted the last failure is
propagated. -/
theorem retry_with_backoff_contract {α : Type} (max_retries : ℕ)
    (base_delay exponent : ℚ) (attempt : ℕ → AttemptOutcome α) :
    (retry_with_backoff max_retries base_delay exponent attempt).invocations ≤ max_retries ∧
    (∃ c : ℕ, (retry_with_backoff max_retries base_delay exponent attempt).sleeps =
      (List.range c).map (fun k => base_delay * exponent ^ k)) ∧
    (∀ k e, k < max_retries →
      (∀ j, j < k → ∃ ej, attempt j = .raises ej ∧ is_network_error ej = true) →
      attempt k = .raises e → is_network_error e = false →
      (retry_with_backoff max_retries base_delay exponent attempt).result = .error e ∧
      (retry_with_backoff max_retries base_delay exponent attempt).invocations = k + 1 ∧
      (retry_with_backoff max_retries base_delay exponent attempt).sleeps.length = k) ∧
    (∀ e, 0 < max_retries →
      (∀ j, j < max_retries - 1 →
        ∃ ej, attempt j = .raises ej ∧ is_network_error ej = true) →
      attempt (max_retries - 1) = .raises e →
      (retry_with_backoff max_retries base_delay exponent attempt).result = .error e) := by
  refine ⟨?_, ?_, ?_, ?_⟩
  · simpa using retry_loop_invocations_le attempt max_retries exponent max_retries 0
      base_delay (by omega)
  · exact retry_loop_sleeps_geometric attempt max_retries exponent max_retries 0
      base_delay (by omega)
  · intro k e hk hprev hke hnet
    have := retry_loop_nonnetwork attempt max_retries exponent max_retries 0
      base_delay k e (by omega) (by omega) hk
      (fun j _ hj2 => hprev j hj2) hke (by simpa using hnet)
    simpa using this
  · intro e hm hprev hlast
    exact retry_loop_exhausted attempt max_retries exponent max_retries 0
      base_delay e (by omega) hm (fun j _ hj2 => hprev j hj2) hlast

/-- C4 witness: with the defaults (3 retries, base 1.0, exponent 2.0), a
transient failure followed by a non-transient one yields exactly two
invocations, one backoff sleep, and the non-transient error as result. -/
theorem retry_with_backoff_contract_witness :
    (retry_with_backoff 3 1 2 demo_attempt).result = .error "ValueError: bad payload" ∧
    (retry_with_backoff 3 1 2 demo_attempt).invocations = 1 + 1 ∧
    (retry_with_backoff 3 1 2 demo_attempt).sleeps.length = 1 :=
  (retry_with_backoff_contract 3 1 2 demo_attempt).2.2.1 1 "ValueError: bad payload"
    (by norm_num)
    (fun j hj => by
      interval_cases j
      exact ⟨"ConnectionError: peer reset", rfl, by decide⟩)
    rfl (by decide)

end FinancialRiskAgent
